import Mathlib

/-!
Shallow embedding of the btc announce cache engine.

Source of truth: src/cache.rs (lock registry, cache store, fetch_cache) and
src/tracker.rs (compact peer codecs, announce-response projection).

Modelling conventions:
- SystemTime instants and Durations are natural numbers (seconds).
- HashMap and BTreeSet are association lists and plain lists; the
  duplicate-freedom that the Rust containers enforce structurally is carried
  by the predicate cache_inv.
- Fallible operations take failure flags from a FetchEnv record (one flag per
  fallible call site of fetch_cache) and return explicit error values.
- A Rust panic (debug_assert failure, unwrap on None, slice index out of
  bounds) is the distinguished result value panicked, never an error value.
- Byte strings are lists of naturals; the intended domain is values below 256
  (u8), and no definition below depends on that bound.
-/

/-- Network socket address (std::net::SocketAddr): IPv4 (4 octets) or
IPv6 (16 octets), each with a u16 port. Octet lists produced by the compact
decoders always have the stated lengths. -/
inductive SocketAddr where
  | v4 (octets : List Nat) (port : Nat)
  | v6 (octets : List Nat) (port : Nat)
deriving DecidableEq, Repr

/-- SocketAddr::is_ipv4. -/
def SocketAddr.is_ipv4 : SocketAddr → Bool
  | .v4 _ _ => true
  | .v6 _ _ => false

/-- SocketAddr::is_ipv6. -/
def SocketAddr.is_ipv6 : SocketAddr → Bool
  | .v4 _ _ => false
  | .v6 _ _ => true

/-- A cached peer (src/cache.rs, struct Peer): expiry instant and address. -/
structure Peer where
  expire : Nat
  addr : SocketAddr
deriving DecidableEq, Repr

/-- Per info-hash cached directory (src/cache.rs, struct TorrentCache). -/
structure TorrentCache where
  size : Nat
  trackers : List (String × Nat)
  peers_time : List Peer
  peers_addr : List (SocketAddr × Nat)
deriving DecidableEq, Repr

/-- TorrentCache::default(): all fields empty. -/
def empty_cache : TorrentCache :=
  { size := 0, trackers := [], peers_time := [], peers_addr := [] }

/-- HashMap::get on the trackers map (first matching key). -/
def lookup_tracker : List (String × Nat) → String → Option Nat
  | [], _ => none
  | (k, v) :: rest, key => if k = key then some v else lookup_tracker rest key

/-- HashMap::insert on the trackers map: overwrite the value in place when the
key is present, otherwise add a fresh entry. -/
def tracker_insert (l : List (String × Nat)) (key : String) (v : Nat) :
    List (String × Nat) :=
  if (l.map Prod.fst).contains key then
    l.map (fun p => if p.1 = key then (key, v) else p)
  else (key, v) :: l

/-- HashMap::get on peers_addr. -/
def lookup_addr : List (SocketAddr × Nat) → SocketAddr → Option Nat
  | [], _ => none
  | (b, t) :: rest, a => if b = a then some t else lookup_addr rest a

/-- HashMap::remove on peers_addr (drops the entry for the key). -/
def addr_remove (l : List (SocketAddr × Nat)) (a : SocketAddr) :
    List (SocketAddr × Nat) :=
  l.filter (fun p => p.1 != a)

/-- Assignment through HashMap::get_mut on peers_addr: rewrite the value of
the existing entry for the key. -/
def addr_update (l : List (SocketAddr × Nat)) (a : SocketAddr) (t : Nat) :
    List (SocketAddr × Nat) :=
  l.map (fun p => if p.1 = a then (a, t) else p)

/-- BTreeSet::insert on peers_time (no effect when already present). -/
def time_insert (l : List Peer) (p : Peer) : List Peer :=
  if p ∈ l then l else p :: l

/-- BTreeSet::remove on peers_time. -/
def time_remove (l : List Peer) (p : Peer) : List Peer :=
  l.filter (fun q => q != p)

/-- Well-formedness that the Rust containers give for free: peers_time is a
set, peers_addr is a map, and the two indices are in bijection (spec
invariants 1 and 2). -/
def keys_nodup (l : List (SocketAddr × Nat)) : Prop := (l.map Prod.fst).Nodup

def cache_inv (c : TorrentCache) : Prop :=
  c.peers_time.Nodup ∧ keys_nodup c.peers_addr ∧
    ∀ a t, (a, t) ∈ c.peers_addr ↔ (⟨t, a⟩ : Peer) ∈ c.peers_time

/-! Compact peer codecs (src/tracker.rs). -/

/-- u16::to_be_bytes. -/
def u16_be_bytes (p : Nat) : List Nat := [p / 256 % 256, p % 256]

/-- serialize_peer_binary: address octets followed by the big-endian port. -/
def serialize_peer_binary : SocketAddr → List Nat
  | .v4 o p => o ++ u16_be_bytes p
  | .v6 o p => o ++ u16_be_bytes p

/-- Result of a compact decode: the source function returns a plain Vec and
panics (debug assertion or slice index out of bounds) on lengths that are not
a multiple of the tuple width. -/
inductive DecodeResult where
  | ok (peers : List SocketAddr)
  | panicked
deriving DecidableEq, Repr

/-- deserialize_peers_binary: 6-byte IPv4 tuples. A trailing chunk shorter
than 6 bytes makes the source index out of bounds, hence panicked. -/
def deserialize_peers_binary : List Nat → DecodeResult
  | [] => .ok []
  | b0 :: b1 :: b2 :: b3 :: p1 :: p2 :: rest =>
    match deserialize_peers_binary rest with
    | .ok l => .ok (.v4 [b0, b1, b2, b3] (p1 * 256 + p2) :: l)
    | .panicked => .panicked
  | _ => .panicked

/-- deserialize_peers6_binary: 18-byte IPv6 tuples, same panic behaviour. -/
def deserialize_peers6_binary : List Nat → DecodeResult
  | [] => .ok []
  | b0 :: b1 :: b2 :: b3 :: b4 :: b5 :: b6 :: b7 :: b8 :: b9 :: b10 :: b11 ::
      b12 :: b13 :: b14 :: b15 :: p1 :: p2 :: rest =>
    match deserialize_peers6_binary rest with
    | .ok l =>
      .ok (.v6 [b0, b1, b2, b3, b4, b5, b6, b7, b8, b9, b10, b11, b12, b13,
        b14, b15] (p1 * 256 + p2) :: l)
    | .panicked => .panicked
  | _ => .panicked

/-- Bencoded announce response (src/tracker.rs, struct AnnounceResponse). -/
structure AnnounceResponse where
  failure_reason : Option String
  warning_message : Option String
  interval : Option Nat
  min_interval : Option Nat
  tracker_id : Option String
  seeders : Option Nat
  leechers : Option Nat
  peers : Option (List Nat)
  peers6 : Option (List Nat)
deriving DecidableEq, Repr

/-- Single forward pass over the peers_addr entries accumulating the compact
IPv4 and IPv6 byte strings (loop body of impl From TorrentCache for
AnnounceResponse). -/
def collect_compact : List (SocketAddr × Nat) → List Nat × List Nat
  | [] => ([], [])
  | (a, _) :: rest =>
    let acc := collect_compact rest
    if a.is_ipv4 then (serialize_peer_binary a ++ acc.1, acc.2)
    else if a.is_ipv6 then (acc.1, serialize_peer_binary a ++ acc.2)
    else acc

/-- impl From TorrentCache for AnnounceResponse (the response projector). -/
def announce_response_of_cache (c : TorrentCache) : AnnounceResponse :=
  let acc := collect_compact c.peers_addr
  { failure_reason := none, warning_message := none,
    interval := some 30, min_interval := some 30, tracker_id := none,
    seeders := some 0, leechers := some c.peers_addr.length,
    peers := some acc.1, peers6 := some acc.2 }

/-! The cache store and the fetch coordinator (src/cache.rs). -/

/-- On-disk state of the one cache file for the info-hash under scrutiny.
truncated is a file that exists but does not deserialize (in particular the
empty file left behind by an interrupted store). -/
inductive FileState where
  | absent
  | truncated
  | content (c : TorrentCache)
deriving DecidableEq, Repr

/-- Error outcomes of fetch_cache, tagged by the fallible call site. -/
inductive FetchError where
  | cacheLoad
  | admissionTimeout
  | originFail
  | persistFail
deriving DecidableEq, Repr

inductive FetchResult where
  | ok (c : TorrentCache)
  | err (e : FetchError)
  | panicked
deriving DecidableEq, Repr

/-- read_cache: absent file is Ok(None); a file that does not deserialize is
an error; io_fail injects an I/O failure. -/
def read_cache (io_fail : Bool) (file : FileState) :
    Except FetchError (Option TorrentCache) :=
  if io_fail then .error .cacheLoad
  else match file with
    | .absent => .ok none
    | .truncated => .error .cacheLoad
    | .content c => .ok (some c)

/-- write_cache: File::options().create(true).truncate(true).write(true)
followed by write_all. Failing to open leaves the file untouched; failing
after the open leaves the file truncated. -/
def write_cache (open_fail write_fail : Bool) (file : FileState)
    (c : TorrentCache) : Option FetchError × FileState :=
  if open_fail then (some .persistFail, file)
  else if write_fail then (some .persistFail, .truncated)
  else (none, .content c)

/-- CACHE_LOCKS refcount for the info-hash key: CacheLock*Guard::new inserts
the entry or bumps its refcount. -/
def rc_acquire : Option Nat → Option Nat
  | none => some 1
  | some n => some (n + 1)

/-- CacheLock*Guard::drop: decrement and remove the entry at zero. The none
case is unreachable in the source (unwrap_unchecked). -/
def rc_release : Option Nat → Option Nat
  | none => none
  | some n => if n - 1 = 0 then none else some (n - 1)

/-- Failure injection for the fallible call sites of fetch_cache, in program
order: the two read_cache calls, the semaphore timeout, the origin announce
(none is a timeout, transport or bencode failure), and the two failure points
of write_cache. -/
structure FetchEnv where
  read_fail1 : Bool
  read_fail2 : Bool
  sem_timeout : Bool
  origin_resp : Option AnnounceResponse
  persist_open_fail : Bool
  persist_write_fail : Bool
deriving DecidableEq, Repr

/-- Lines 254-258 of src/cache.rs: a missing peers field contributes nothing;
a present field is decoded, propagating the decoder panic. -/
def decode_peers_opt : Option (List Nat) → Option (List SocketAddr)
  | none => some []
  | some bytes =>
    match deserialize_peers_binary bytes with
    | .ok l => some l
    | .panicked => none

def decode_peers6_opt : Option (List Nat) → Option (List SocketAddr)
  | none => some []
  | some bytes =>
    match deserialize_peers6_binary bytes with
    | .ok l => some l
    | .panicked => none

/-- effective ttl: Duration::from_secs(min_interval).max(ttl) when the origin
reports a min interval, plain ttl otherwise. -/
def effective_ttl (min_interval : Option Nat) (ttl : Nat) : Nat :=
  match min_interval with
  | some m => max m ttl
  | none => ttl

/-- The eviction sweep of fetch_cache: extract_if removes every peer with
expire < now from peers_time and drops its address from peers_addr. -/
def evict_expired (c : TorrentCache) (now : Nat) : TorrentCache :=
  let removed := c.peers_time.filter (fun p => decide (p.expire < now))
  { c with
    peers_time := c.peers_time.filter (fun p => !decide (p.expire < now)),
    peers_addr := removed.foldl (fun m p => addr_remove m p.addr) c.peers_addr }

/-- The per-address upsert of fetch_cache (lines 262-276): refresh the expiry
of a known address, dropping its old peers_time tuple, or insert a fresh
entry into both indices. -/
def upsert_peer (c : TorrentCache) (a : SocketAddr) (expiration : Nat) :
    TorrentCache :=
  match lookup_addr c.peers_addr a with
  | some t_old =>
    { c with
      peers_time := time_insert (time_remove c.peers_time ⟨t_old, a⟩)
        ⟨expiration, a⟩,
      peers_addr := addr_update c.peers_addr a expiration }
  | none =>
    { c with
      peers_time := time_insert c.peers_time ⟨expiration, a⟩,
      peers_addr := (a, expiration) :: c.peers_addr }

/-- The merge phase of fetch_cache (lines 234-276): adopt the size, record
origin validity, evict expired peers, then upsert every decoded peer with the
common expiration now + effective ttl. -/
def merge_phase (c0 : TorrentCache) (origin_key : String) (size : Nat)
    (min_interval : Option Nat) (ttl now : Nat)
    (new_peers : List SocketAddr) : TorrentCache :=
  let ttl_eff := effective_ttl min_interval ttl
  let c1 := { c0 with size := size }
  let c2 := { c1 with
    trackers := tracker_insert c1.trackers origin_key (now + ttl_eff) }
  let c3 := evict_expired c2 now
  new_peers.foldl (fun c a => upsert_peer c a (now + ttl_eff)) c3

/-- Validity check of fetch_cache (lines 202-204 and 214-216): the directory
is a hit for the origin when its recorded expiry is strictly in the future. -/
def is_hit (c : TorrentCache) (key : String) (now : Nat) : Bool :=
  match lookup_tracker c.trackers key with
  | some exp => decide (now < exp)
  | none => false

/-- Observable outcome of one fetch_cache call: the returned value, the
on-disk file afterwards, whether an announce was issued to the origin, and
the CACHE_LOCKS refcount for the key afterwards. -/
structure FetchOut where
  result : FetchResult
  file : FileState
  upstream : Bool
  rc : Option Nat
deriving DecidableEq, Repr

/-- Origin phase and merge phase of fetch_cache (lines 224-281), entered while
holding the write lock (refcount rc1). The missing-size case reproduces the
debug_assert / unwrap on None, a panic. Error returns reproduce the source
operator ? which skips the manual guard drop, so rc1 is left as is. -/
def fetch_origin (env : FetchEnv) (file : FileState) (size_opt : Option Nat)
    (curr : Option TorrentCache) (key : String) (ttl now : Nat)
    (rc1 : Option Nat) : FetchOut :=
  match size_opt with
  | none => ⟨.panicked, file, false, rc1⟩
  | some size =>
    if env.sem_timeout then ⟨.err .admissionTimeout, file, false, rc1⟩
    else match env.origin_resp with
      | none => ⟨.err .originFail, file, true, rc1⟩
      | some resp =>
        match decode_peers_opt resp.peers, decode_peers6_opt resp.peers6 with
        | some l4, some l6 =>
          let c2 := merge_phase (curr.getD empty_cache) key size
            resp.min_interval ttl now (l4 ++ l6)
          match write_cache env.persist_open_fail env.persist_write_fail
              file c2 with
          | (some e, f2) => ⟨.err e, f2, true, rc1⟩
          | (none, f2) => ⟨.ok c2, f2, true, rc_release rc1⟩
        | _, _ => ⟨.panicked, file, true, rc1⟩

/-- Write phase of fetch_cache (lines 211-225): acquire the write lock,
reload, return on a hit (releasing the lock), adopt the persisted size when
none was declared, then enter the origin phase. -/
def fetch_write (env : FetchEnv) (file : FileState) (size_opt : Option Nat)
    (key : String) (ttl now : Nat) (rc : Option Nat) : FetchOut :=
  match read_cache env.read_fail2 file with
  | .error e => ⟨.err e, file, false, rc_acquire rc⟩
  | .ok (some c) =>
    if is_hit c key now then
      ⟨.ok c, file, false, rc_release (rc_acquire rc)⟩
    else
      fetch_origin env file
        (match size_opt with | some v => some v | none => some c.size)
        (some c) key ttl now (rc_acquire rc)
  | .ok none => fetch_origin env file size_opt none key ttl now (rc_acquire rc)

/-- fetch_cache (lines 182-282) for one info-hash key: read phase under the
read lock, then the write phase. rc is the CACHE_LOCKS refcount for the key
on entry (none when the map has no entry). -/
def fetch_cache (env : FetchEnv) (file : FileState) (size_opt : Option Nat)
    (key : String) (ttl now : Nat) (rc : Option Nat) : FetchOut :=
  match read_cache env.read_fail1 file with
  | .error e => ⟨.err e, file, false, rc_acquire rc⟩
  | .ok (some c) =>
    if is_hit c key now then
      ⟨.ok c, file, false, rc_release (rc_acquire rc)⟩
    else fetch_write env file size_opt key ttl now (rc_release (rc_acquire rc))
  | .ok none =>
    fetch_write env file size_opt key ttl now (rc_release (rc_acquire rc))

/-! Concrete sample data used by the closed evaluations below. -/

/-- Origin response carrying nothing: no min interval, no peer lists. -/
def resp_empty : AnnounceResponse :=
  ⟨none, none, none, none, none, none, none, none, none⟩

/-- Environment where every fallible operation succeeds and the origin
answers with resp. -/
def env_ok (resp : AnnounceResponse) : FetchEnv :=
  ⟨false, false, false, some resp, false, false⟩

/-- Environment where the persisting write fails after the truncating open
succeeded. -/
def env_write_fails (resp : AnnounceResponse) : FetchEnv :=
  ⟨false, false, false, some resp, false, true⟩

def addr_a : SocketAddr := .v4 [1, 2, 3, 4] 6881

def addr_b : SocketAddr :=
  .v6 [0, 0, 0, 0, 0, 0, 0, 0, 0, 0, 0, 0, 0, 0, 0, 1] 6881

/-- A directory with size 7 and nothing else, stale for every origin. -/
def cache7 : TorrentCache :=
  { size := 7, trackers := [], peers_time := [], peers_addr := [] }

/-- A directory holding one peer that expires exactly at instant 100. -/
def cache_boundary : TorrentCache :=
  { size := 5, trackers := [], peers_time := [⟨100, addr_a⟩],
    peers_addr := [(addr_a, 100)] }

/-- A directory fresh for origin key k until instant 200, holding one peer
whose own expiry 50 is already past at instant 100. -/
def cache_hit_stale_peer : TorrentCache :=
  { size := 5, trackers := [("k", 200)], peers_time := [⟨50, addr_a⟩],
    peers_addr := [(addr_a, 50)] }

/-- Origin response with min interval zero and one compact IPv4 peer
(1.2.3.4:6881, port bytes 26 and 225). -/
def resp_mi0 : AnnounceResponse :=
  ⟨none, none, none, some 0, none, none, none, some [1, 2, 3, 4, 26, 225],
    none⟩

/-- The directory produced by a cold fetch of key k at instant 100 with ttl
60, declared size 5 and origin response resp_empty. -/
def cache_cold : TorrentCache :=
  { size := 5, trackers := [("k", 160)], peers_time := [], peers_addr := [] }

/-- The directory produced by the same cold fetch when the origin answers
resp_mi0. -/
def cache_cold_peer : TorrentCache :=
  { size := 5, trackers := [("k", 160)], peers_time := [⟨160, addr_a⟩],
    peers_addr := [(addr_a, 160)] }

/-- The directory produced by re-announcing over cache_boundary at instant
100: the boundary peer survives the sweep. -/
def cache_boundary_after : TorrentCache :=
  { size := 5, trackers := [("k", 160)], peers_time := [⟨100, addr_a⟩],
    peers_addr := [(addr_a, 100)] }

/-- The directory produced by re-announcing over cache7 with no declared
size: the persisted size 7 is adopted. -/
def cache7_after : TorrentCache :=
  { size := 7, trackers := [("k", 160)], peers_time := [], peers_addr := [] }

/-- Well-formedness the Rust address types enforce: 4 or 16 address octets
and a u16 port. -/
def addr_wf : SocketAddr → Bool
  | .v4 o p => decide (o.length = 4) && decide (p < 65536)
  | .v6 o p => decide (o.length = 16) && decide (p < 65536)

/-! Association list facts for the two peer indices. -/

theorem lookup_addr_mem {a : SocketAddr} {t : Nat} :
    ∀ {l : List (SocketAddr × Nat)}, lookup_addr l a = some t → (a, t) ∈ l := by
  intro l
  induction l with
  | nil => intro h; simp [lookup_addr] at h
  | cons hd tl ih =>
    intro h
    obtain ⟨b, s⟩ := hd
    by_cases hb : b = a
    · subst hb
      simp [lookup_addr] at h
      subst h
      exact List.mem_cons_self _ _
    · simp only [lookup_addr, if_neg hb] at h
      exact List.mem_cons_of_mem _ (ih h)

theorem lookup_addr_eq_none {a : SocketAddr} :
    ∀ {l : List (SocketAddr × Nat)},
      lookup_addr l a = none ↔ a ∉ l.map Prod.fst := by
  intro l
  induction l with
  | nil => simp [lookup_addr]
  | cons hd tl ih =>
    obtain ⟨b, s⟩ := hd
    by_cases hb : b = a
    · subst hb; simp [lookup_addr]
    · simp only [lookup_addr, if_neg hb, List.map_cons, List.mem_cons, ih]
      constructor
      · intro h hmem
        rcases hmem with h1 | h2
        · exact hb h1.symm
        · exact h h2
      · intro h h2
        exact h (Or.inr h2)

theorem mem_lookup_addr {a : SocketAddr} {t : Nat} :
    ∀ {l : List (SocketAddr × Nat)}, keys_nodup l → (a, t) ∈ l →
      lookup_addr l a = some t := by
  intro l
  induction l with
  | nil => intro _ hm; simp at hm
  | cons hd tl ih =>
    intro hnd hm
    obtain ⟨b, s⟩ := hd
    simp only [keys_nodup, List.map_cons, List.nodup_cons] at hnd
    rcases List.mem_cons.mp hm with h | h
    · obtain ⟨rfl, rfl⟩ := Prod.mk.injEq .. ▸ h
      simp [lookup_addr]
    · have hb : b ≠ a := by
        rintro rfl
        exact hnd.1 (List.mem_map.mpr ⟨(b, t), h, rfl⟩)
      simp only [lookup_addr, if_neg hb]
      exact ih hnd.2 h

theorem keys_nodup_uniq {l : List (SocketAddr × Nat)} {a : SocketAddr}
    {t t' : Nat} (hnd : keys_nodup l) (h : (a, t) ∈ l) (h' : (a, t') ∈ l) :
    t = t' := by
  have h1 := mem_lookup_addr hnd h
  have h2 := mem_lookup_addr hnd h'
  rw [h1] at h2
  exact Option.some.inj h2

theorem mem_addr_remove {l : List (SocketAddr × Nat)} {a : SocketAddr}
    {x : SocketAddr × Nat} : x ∈ addr_remove l a ↔ x ∈ l ∧ x.1 ≠ a := by
  simp [addr_remove, List.mem_filter]

theorem addr_remove_sublist (l : List (SocketAddr × Nat)) (a : SocketAddr) :
    List.Sublist (addr_remove l a) l :=
  List.filter_sublist _

theorem mem_addr_update {l : List (SocketAddr × Nat)} {a b : SocketAddr}
    {t s : Nat} :
    (b, s) ∈ addr_update l a t ↔
      (b ≠ a ∧ (b, s) ∈ l) ∨ (b = a ∧ s = t ∧ a ∈ l.map Prod.fst) := by
  constructor
  · intro h
    obtain ⟨y, hy, hf⟩ := List.mem_map.mp h
    by_cases hy1 : y.1 = a
    · rw [if_pos hy1] at hf
      have hb : b = a := congrArg Prod.fst hf.symm
      have hs : s = t := congrArg Prod.snd hf.symm
      exact Or.inr ⟨hb, hs, hy1 ▸ List.mem_map.mpr ⟨y, hy, rfl⟩⟩
    · rw [if_neg hy1] at hf
      rw [hf] at hy hy1
      exact Or.inl ⟨hy1, hy⟩
  · rintro (⟨hba, hm⟩ | ⟨hba, hst, hk⟩)
    · exact List.mem_map.mpr ⟨(b, s), hm, by simp [hba]⟩
    · obtain ⟨y, hy, hf⟩ := List.mem_map.mp hk
      refine List.mem_map.mpr ⟨y, hy, ?_⟩
      rw [if_pos hf, hba, hst]

theorem addr_update_keys (l : List (SocketAddr × Nat)) (a : SocketAddr)
    (t : Nat) : (addr_update l a t).map Prod.fst = l.map Prod.fst := by
  induction l with
  | nil => rfl
  | cons hd tl ih =>
    obtain ⟨b, s⟩ := hd
    by_cases hb : b = a
    · subst hb; simp [addr_update] at ih ⊢; exact ih
    · simp [addr_update, hb] at ih ⊢; exact ih

theorem mem_time_insert {l : List Peer} {p q : Peer} :
    q ∈ time_insert l p ↔ q = p ∨ q ∈ l := by
  unfold time_insert
  split
  · rename_i hmem
    constructor
    · exact Or.inr
    · rintro (rfl | h) <;> [exact hmem; exact h]
  · simp [List.mem_cons]

theorem time_insert_nodup {l : List Peer} {p : Peer} (h : l.Nodup) :
    (time_insert l p).Nodup := by
  unfold time_insert
  split
  · exact h
  · rename_i hmem
    exact List.nodup_cons.mpr ⟨hmem, h⟩

theorem mem_time_remove {l : List Peer} {p q : Peer} :
    q ∈ time_remove l p ↔ q ∈ l ∧ q ≠ p := by
  simp [time_remove, List.mem_filter]

theorem time_remove_sublist (l : List Peer) (p : Peer) :
    List.Sublist (time_remove l p) l :=
  List.filter_sublist _

theorem mem_foldl_addr_remove {x : SocketAddr × Nat} :
    ∀ (ps : List Peer) (m : List (SocketAddr × Nat)),
      x ∈ ps.foldl (fun m p => addr_remove m p.addr) m ↔
        x ∈ m ∧ ∀ p ∈ ps, p.addr ≠ x.1 := by
  intro ps
  induction ps with
  | nil => simp
  | cons hd tl ih =>
    intro m
    simp only [List.foldl_cons, ih, mem_addr_remove, List.mem_cons]
    constructor
    · rintro ⟨⟨hm, hne⟩, hall⟩
      refine ⟨hm, ?_⟩
      rintro p (rfl | hp)
      · exact fun h => hne h.symm
      · exact hall p hp
    · rintro ⟨hm, hall⟩
      exact ⟨⟨hm, fun h => hall hd (Or.inl rfl) h.symm⟩,
        fun p hp => hall p (Or.inr hp)⟩

theorem foldl_addr_remove_sublist :
    ∀ (ps : List Peer) (m : List (SocketAddr × Nat)),
      List.Sublist (ps.foldl (fun m p => addr_remove m p.addr) m) m := by
  intro ps
  induction ps with
  | nil => intro m; exact List.Sublist.refl m
  | cons hd tl ih =>
    intro m
    exact (ih (addr_remove m hd.addr)).trans (addr_remove_sublist m hd.addr)

/-! Preservation of the two-index invariant. -/

theorem cache_inv_no_shared_addr {c : TorrentCache} (h : cache_inv c)
    {t t' : Nat} {a : SocketAddr} (h1 : (⟨t, a⟩ : Peer) ∈ c.peers_time)
    (h2 : (⟨t', a⟩ : Peer) ∈ c.peers_time) : t = t' :=
  keys_nodup_uniq h.2.1 ((h.2.2 a t).mpr h1) ((h.2.2 a t').mpr h2)

theorem upsert_peer_inv {c : TorrentCache} {a : SocketAddr} {e : Nat}
    (h : cache_inv c) : cache_inv (upsert_peer c a e) := by
  obtain ⟨hnd, hknd, hbij⟩ := h
  cases hl : lookup_addr c.peers_addr a with
  | none =>
    have hnk : a ∉ c.peers_addr.map Prod.fst := lookup_addr_eq_none.mp hl
    simp only [cache_inv, upsert_peer, hl]
    refine ⟨time_insert_nodup hnd, ?_, ?_⟩
    · simp only [keys_nodup, List.map_cons, List.nodup_cons]
      exact ⟨hnk, hknd⟩
    · intro b t
      simp only [List.mem_cons, mem_time_insert, Prod.mk.injEq, Peer.mk.injEq]
      constructor
      · rintro (⟨rfl, rfl⟩ | hm)
        · exact Or.inl ⟨rfl, rfl⟩
        · exact Or.inr ((hbij b t).mp hm)
      · rintro (⟨rfl, rfl⟩ | hm)
        · exact Or.inl ⟨rfl, rfl⟩
        · exact Or.inr ((hbij b t).mpr hm)
  | some t_old =>
    have hmo : (a, t_old) ∈ c.peers_addr := lookup_addr_mem hl
    have hpo : (⟨t_old, a⟩ : Peer) ∈ c.peers_time := (hbij a t_old).mp hmo
    have hka : a ∈ c.peers_addr.map Prod.fst :=
      List.mem_map.mpr ⟨(a, t_old), hmo, rfl⟩
    simp only [cache_inv, upsert_peer, hl]
    refine ⟨?_, ?_, ?_⟩
    · exact time_insert_nodup (List.Nodup.sublist (time_remove_sublist _ _) hnd)
    · simp only [keys_nodup, addr_update_keys]
      exact hknd
    · intro b t
      simp only [mem_addr_update, mem_time_insert, mem_time_remove,
        Peer.mk.injEq]
      constructor
      · rintro (⟨hba, hm⟩ | ⟨hba, hte, _⟩)
        · refine Or.inr ⟨(hbij b t).mp hm, ?_⟩
          intro hq
          have : b = a := congrArg Peer.addr hq
          exact hba this
        · exact Or.inl ⟨hte, hba⟩
      · rintro (⟨hte, hba⟩ | ⟨hm, hne⟩)
        · exact Or.inr ⟨hba, hte, hka⟩
        · have hmb : (b, t) ∈ c.peers_addr := (hbij b t).mpr hm
          by_cases hba : b = a
          · subst hba
            have ht : t = t_old := keys_nodup_uniq hknd hmb hmo
            exact absurd (by rw [ht]) hne
          · exact Or.inl ⟨hba, hmb⟩

theorem evict_expired_inv {c : TorrentCache} {now : Nat} (h : cache_inv c) :
    cache_inv (evict_expired c now) := by
  obtain ⟨hnd, hknd, hbij⟩ := h
  simp only [cache_inv, evict_expired, keys_nodup]
  refine ⟨?_, ?_, ?_⟩
  · exact List.Nodup.sublist (List.filter_sublist _) hnd
  · exact List.Nodup.sublist
      (List.Sublist.map _ (foldl_addr_remove_sublist _ _)) hknd
  · intro b t
    simp only [mem_foldl_addr_remove, List.mem_filter, Bool.not_eq_true',
      decide_eq_false_iff_not, decide_eq_true_eq]
    constructor
    · rintro ⟨hm, hall⟩
      refine ⟨(hbij b t).mp hm, ?_⟩
      intro hlt
      exact hall ⟨t, b⟩ ⟨(hbij b t).mp hm, hlt⟩ rfl
    · rintro ⟨hm, hnlt⟩
      refine ⟨(hbij b t).mpr hm, ?_⟩
      rintro ⟨pe, pad⟩ hp hpb
      simp only [List.mem_filter, decide_eq_true_eq] at hp
      simp only at hpb
      have hmem : (⟨pe, pad⟩ : Peer) ∈ c.peers_time := hp.1
      rw [hpb] at hmem
      have hpa : (b, pe) ∈ c.peers_addr := (hbij b pe).mpr hmem
      have hpt : pe = t := keys_nodup_uniq hknd hpa ((hbij b t).mpr hm)
      rw [hpt] at hp
      exact hnlt hp.2

theorem foldl_upsert_inv {e : Nat} :
    ∀ (ps : List SocketAddr) {c : TorrentCache}, cache_inv c →
      cache_inv (ps.foldl (fun c a => upsert_peer c a e) c) := by
  intro ps
  induction ps with
  | nil => intro c h; exact h
  | cons hd tl ih => intro c h; exact ih (upsert_peer_inv h)

theorem merge_phase_inv {c : TorrentCache} {key : String} {size : Nat}
    {mi : Option Nat} {ttl now : Nat} {peers : List SocketAddr}
    (h : cache_inv c) : cache_inv (merge_phase c key size mi ttl now peers) :=
  foldl_upsert_inv peers (evict_expired_inv h)

/-! Lookup facts after the merge phase. -/

theorem lookup_tracker_map_update {v : Nat} {key : String} :
    ∀ {l : List (String × Nat)}, (l.map Prod.fst).contains key = true →
      lookup_tracker (l.map (fun p => if p.1 = key then (key, v) else p)) key
        = some v := by
  intro l
  induction l with
  | nil => intro h; simp at h
  | cons hd tl ih =>
    intro h
    obtain ⟨b, s⟩ := hd
    by_cases hb : b = key
    · subst hb
      simp only [List.map_cons]
      simp [lookup_tracker]
    · simp only [List.map_cons, List.contains_cons] at h
      have hkb : ¬ key = b := fun hx => hb hx.symm
      have h2 : (tl.map Prod.fst).contains key = true := by
        simpa [hkb] using h
      simp only [List.map_cons]
      rw [show (if (b, s).1 = key then (key, v) else (b, s)) = (b, s) from
        if_neg hb]
      simp only [lookup_tracker, if_neg hb]
      exact ih h2

theorem lookup_tracker_insert_self (l : List (String × Nat)) (key : String)
    (v : Nat) : lookup_tracker (tracker_insert l key v) key = some v := by
  unfold tracker_insert
  split
  · exact lookup_tracker_map_update (by assumption)
  · simp [lookup_tracker]

theorem upsert_peer_trackers (c : TorrentCache) (a : SocketAddr) (e : Nat) :
    (upsert_peer c a e).trackers = c.trackers := by
  unfold upsert_peer
  split <;> rfl

theorem foldl_upsert_trackers {e : Nat} :
    ∀ (ps : List SocketAddr) (c : TorrentCache),
      (ps.foldl (fun c a => upsert_peer c a e) c).trackers = c.trackers := by
  intro ps
  induction ps with
  | nil => intro c; rfl
  | cons hd tl ih =>
    intro c
    rw [List.foldl_cons, ih, upsert_peer_trackers]

theorem merge_phase_trackers (c : TorrentCache) (key : String) (size : Nat)
    (mi : Option Nat) (ttl now : Nat) (peers : List SocketAddr) :
    (merge_phase c key size mi ttl now peers).trackers =
      tracker_insert c.trackers key (now + effective_ttl mi ttl) := by
  unfold merge_phase
  rw [foldl_upsert_trackers]
  rfl

theorem merge_phase_lookup_tracker (c : TorrentCache) (key : String)
    (size : Nat) (mi : Option Nat) (ttl now : Nat)
    (peers : List SocketAddr) :
    lookup_tracker (merge_phase c key size mi ttl now peers).trackers key =
      some (now + effective_ttl mi ttl) := by
  rw [merge_phase_trackers]
  exact lookup_tracker_insert_self _ _ _

theorem lookup_addr_addr_update {a : SocketAddr} {t e : Nat} :
    ∀ {l : List (SocketAddr × Nat)}, lookup_addr l a = some t →
      lookup_addr (addr_update l a e) a = some e := by
  intro l
  induction l with
  | nil => intro h; simp [lookup_addr] at h
  | cons hd tl ih =>
    intro h
    obtain ⟨b, s⟩ := hd
    by_cases hb : b = a
    · subst hb
      simp only [addr_update, List.map_cons]
      simp [lookup_addr]
    · simp only [lookup_addr, if_neg hb] at h
      simp only [addr_update, List.map_cons]
      rw [show (if (b, s).1 = a then (a, e) else (b, s)) = (b, s) from
        if_neg hb]
      simp only [lookup_addr, if_neg hb]
      exact ih h

theorem lookup_addr_addr_update_other {a b : SocketAddr} {e : Nat}
    (hab : b ≠ a) :
    ∀ (l : List (SocketAddr × Nat)),
      lookup_addr (addr_update l b e) a = lookup_addr l a := by
  intro l
  induction l with
  | nil => rfl
  | cons hd tl ih =>
    obtain ⟨x, s⟩ := hd
    by_cases hx : x = b
    · subst hx
      have hxa : x ≠ a := hab
      simp only [addr_update, List.map_cons, if_pos rfl]
      simp only [lookup_addr, if_neg hab, if_neg hxa]
      exact ih
    · simp only [addr_update, List.map_cons]
      rw [show (if (x, s).1 = b then (b, e) else (x, s)) = (x, s) from
        if_neg hx]
      by_cases hxa : x = a
      · subst hxa
        simp [lookup_addr]
      · simp only [lookup_addr, if_neg hxa]
        exact ih

theorem lookup_addr_upsert_self (c : TorrentCache) (a : SocketAddr)
    (e : Nat) : lookup_addr (upsert_peer c a e).peers_addr a = some e := by
  cases hl : lookup_addr c.peers_addr a with
  | none =>
    simp only [upsert_peer, hl]
    simp [lookup_addr]
  | some t_old =>
    simp only [upsert_peer, hl]
    exact lookup_addr_addr_update hl

theorem lookup_addr_upsert_pres {c : TorrentCache} {a b : SocketAddr}
    {e : Nat} (h : lookup_addr c.peers_addr a = some e) :
    lookup_addr (upsert_peer c b e).peers_addr a = some e := by
  by_cases hab : b = a
  · subst hab
    exact lookup_addr_upsert_self c b e
  · cases hl : lookup_addr c.peers_addr b with
    | none =>
      simp only [upsert_peer, hl]
      simp only [lookup_addr, if_neg hab]
      exact h
    | some t_old =>
      simp only [upsert_peer, hl]
      rw [lookup_addr_addr_update_other hab]
      exact h

theorem foldl_upsert_lookup {e : Nat} :
    ∀ (ps : List SocketAddr) {c : TorrentCache} {a : SocketAddr},
      (a ∈ ps ∨ lookup_addr c.peers_addr a = some e) →
      lookup_addr ((ps.foldl (fun c x => upsert_peer c x e) c)).peers_addr a
        = some e := by
  intro ps
  induction ps with
  | nil =>
    intro c a h
    rcases h with h | h
    · simp at h
    · exact h
  | cons hd tl ih =>
    intro c a h
    rw [List.foldl_cons]
    apply ih
    rcases h with h | h
    · rcases List.mem_cons.mp h with rfl | htl
      · exact Or.inr (lookup_addr_upsert_self c a e)
      · exact Or.inl htl
    · exact Or.inr (lookup_addr_upsert_pres h)

theorem merge_phase_lookup_addr {c : TorrentCache} {key : String}
    {size : Nat} {mi : Option Nat} {ttl now : Nat}
    {peers : List SocketAddr} {a : SocketAddr} (h : a ∈ peers) :
    lookup_addr (merge_phase c key size mi ttl now peers).peers_addr a =
      some (now + effective_ttl mi ttl) := by
  unfold merge_phase
  exact foldl_upsert_lookup peers (Or.inl h)

/-! Length discipline of the compact decoders. -/

theorem deserialize_peers_binary_panic_iff :
    ∀ (v : List Nat),
      (deserialize_peers_binary v = .panicked ↔ ¬ v.length % 6 = 0)
  | [] => iff_of_false (by decide) (by decide)
  | [a0] => iff_of_true rfl (by simp)
  | [a0, a1] => iff_of_true rfl (by simp)
  | [a0, a1, a2] => iff_of_true rfl (by simp)
  | [a0, a1, a2, a3] => iff_of_true rfl (by simp)
  | [a0, a1, a2, a3, a4] => iff_of_true rfl (by simp)
  | a0 :: a1 :: a2 :: a3 :: a4 :: a5 :: rest => by
    have ih := deserialize_peers_binary_panic_iff rest
    cases hres : deserialize_peers_binary rest with
    | ok l =>
      have h0 : rest.length % 6 = 0 := by
        by_contra hh
        have h2 := ih.mpr hh
        rw [hres] at h2
        exact absurd h2 (by simp)
      simp only [deserialize_peers_binary, hres, List.length_cons]
      constructor
      · intro hcontra
        exact absurd hcontra (by simp)
      · intro hneg
        exact absurd (by omega : (rest.length + 1 + 1 + 1 + 1 + 1 + 1) % 6 = 0) hneg
    | panicked =>
      have h1 : ¬ rest.length % 6 = 0 := ih.mp hres
      simp only [deserialize_peers_binary, hres, List.length_cons]
      constructor
      · intro _
        omega
      · intro _
        trivial

theorem deserialize_peers6_binary_panic_iff :
    ∀ (v : List Nat),
      (deserialize_peers6_binary v = .panicked ↔ ¬ v.length % 18 = 0)
  | [] => iff_of_false (by decide) (by decide)
  | [a0] => iff_of_true rfl (by simp)
  | [a0, a1] => iff_of_true rfl (by simp)
  | [a0, a1, a2] => iff_of_true rfl (by simp)
  | [a0, a1, a2, a3] => iff_of_true rfl (by simp)
  | [a0, a1, a2, a3, a4] => iff_of_true rfl (by simp)
  | [a0, a1, a2, a3, a4, a5] => iff_of_true rfl (by simp)
  | [a0, a1, a2, a3, a4, a5, a6] => iff_of_true rfl (by simp)
  | [a0, a1, a2, a3, a4, a5, a6, a7] => iff_of_true rfl (by simp)
  | [a0, a1, a2, a3, a4, a5, a6, a7, a8] => iff_of_true rfl (by simp)
  | [a0, a1, a2, a3, a4, a5, a6, a7, a8, a9] => iff_of_true rfl (by simp)
  | [a0, a1, a2, a3, a4, a5, a6, a7, a8, a9, a10] => iff_of_true rfl (by simp)
  | [a0, a1, a2, a3, a4, a5, a6, a7, a8, a9, a10, a11] => iff_of_true rfl (by simp)
  | [a0, a1, a2, a3, a4, a5, a6, a7, a8, a9, a10, a11, a12] => iff_of_true rfl (by simp)
  | [a0, a1, a2, a3, a4, a5, a6, a7, a8, a9, a10, a11, a12, a13] => iff_of_true rfl (by simp)
  | [a0, a1, a2, a3, a4, a5, a6, a7, a8, a9, a10, a11, a12, a13, a14] => iff_of_true rfl (by simp)
  | [a0, a1, a2, a3, a4, a5, a6, a7, a8, a9, a10, a11, a12, a13, a14, a15] => iff_of_true rfl (by simp)
  | [a0, a1, a2, a3, a4, a5, a6, a7, a8, a9, a10, a11, a12, a13, a14, a15, a16] => iff_of_true rfl (by simp)
  | a0 :: a1 :: a2 :: a3 :: a4 :: a5 :: a6 :: a7 :: a8 :: a9 :: a10 :: a11 :: a12 :: a13 :: a14 :: a15 :: a16 :: a17 :: rest => by
    have ih := deserialize_peers6_binary_panic_iff rest
    cases hres : deserialize_peers6_binary rest with
    | ok l =>
      have h0 : rest.length % 18 = 0 := by
        by_contra hh
        have h2 := ih.mpr hh
        rw [hres] at h2
        exact absurd h2 (by simp)
      simp only [deserialize_peers6_binary, hres, List.length_cons]
      constructor
      · intro hcontra
        exact absurd hcontra (by simp)
      · intro hneg
        exact absurd (by omega : (rest.length + 1 + 1 + 1 + 1 + 1 + 1 + 1 + 1 + 1 + 1 + 1 + 1 + 1 + 1 + 1 + 1 + 1 + 1) % 18 = 0) hneg
    | panicked =>
      have h1 : ¬ rest.length % 18 = 0 := ih.mp hres
      simp only [deserialize_peers6_binary, hres, List.length_cons]
      constructor
      · intro _
        omega
      · intro _
        trivial

theorem deserialize_peers_binary_ok_length :
    ∀ (v : List Nat) (l : List SocketAddr),
      deserialize_peers_binary v = .ok l → v.length = 6 * l.length
  | [], l => by
    intro h
    rw [show deserialize_peers_binary [] = DecodeResult.ok [] from rfl] at h
    obtain rfl := DecodeResult.ok.inj h
    rfl
  | [a0], l => by
    intro h
    rw [show deserialize_peers_binary [a0] = DecodeResult.panicked from rfl] at h
    simp at h
  | [a0, a1], l => by
    intro h
    rw [show deserialize_peers_binary [a0, a1] = DecodeResult.panicked from rfl] at h
    simp at h
  | [a0, a1, a2], l => by
    intro h
    rw [show deserialize_peers_binary [a0, a1, a2] = DecodeResult.panicked from rfl] at h
    simp at h
  | [a0, a1, a2, a3], l => by
    intro h
    rw [show deserialize_peers_binary [a0, a1, a2, a3] = DecodeResult.panicked from rfl] at h
    simp at h
  | [a0, a1, a2, a3, a4], l => by
    intro h
    rw [show deserialize_peers_binary [a0, a1, a2, a3, a4] = DecodeResult.panicked from rfl] at h
    simp at h
  | a0 :: a1 :: a2 :: a3 :: a4 :: a5 :: rest, l => by
    intro h
    cases hres : deserialize_peers_binary rest with
    | panicked =>
      simp only [deserialize_peers_binary, hres] at h
      exact absurd h (by simp)
    | ok l2 =>
      simp only [deserialize_peers_binary, hres] at h
      obtain rfl := DecodeResult.ok.inj h
      have ih := deserialize_peers_binary_ok_length rest l2 hres
      simp only [List.length_cons]
      omega

theorem deserialize_peers6_binary_ok_length :
    ∀ (v : List Nat) (l : List SocketAddr),
      deserialize_peers6_binary v = .ok l → v.length = 18 * l.length
  | [], l => by
    intro h
    rw [show deserialize_peers6_binary [] = DecodeResult.ok [] from rfl] at h
    obtain rfl := DecodeResult.ok.inj h
    rfl
  | [a0], l => by
    intro h
    rw [show deserialize_peers6_binary [a0] = DecodeResult.panicked from rfl] at h
    simp at h
  | [a0, a1], l => by
    intro h
    rw [show deserialize_peers6_binary [a0, a1] = DecodeResult.panicked from rfl] at h
    simp at h
  | [a0, a1, a2], l => by
    intro h
    rw [show deserialize_peers6_binary [a0, a1, a2] = DecodeResult.panicked from rfl] at h
    simp at h
  | [a0, a1, a2, a3], l => by
    intro h
    rw [show deserialize_peers6_binary [a0, a1, a2, a3] = DecodeResult.panicked from rfl] at h
    simp at h
  | [a0, a1, a2, a3, a4], l => by
    intro h
    rw [show deserialize_peers6_binary [a0, a1, a2, a3, a4] = DecodeResult.panicked from rfl] at h
    simp at h
  | [a0, a1, a2, a3, a4, a5], l => by
    intro h
    rw [show deserialize_peers6_binary [a0, a1, a2, a3, a4, a5] = DecodeResult.panicked from rfl] at h
    simp at h
  | [a0, a1, a2, a3, a4, a5, a6], l => by
    intro h
    rw [show deserialize_peers6_binary [a0, a1, a2, a3, a4, a5, a6] = DecodeResult.panicked from rfl] at h
    simp at h
  | [a0, a1, a2, a3, a4, a5, a6, a7], l => by
    intro h
    rw [show deserialize_peers6_binary [a0, a1, a2, a3, a4, a5, a6, a7] = DecodeResult.panicked from rfl] at h
    simp at h
  | [a0, a1, a2, a3, a4, a5, a6, a7, a8], l => by
    intro h
    rw [show deserialize_peers6_binary [a0, a1, a2, a3, a4, a5, a6, a7, a8] = DecodeResult.panicked from rfl] at h
    simp at h
  | [a0, a1, a2, a3, a4, a5, a6, a7, a8, a9], l => by
    intro h
    rw [show deserialize_peers6_binary [a0, a1, a2, a3, a4, a5, a6, a7, a8, a9] = DecodeResult.panicked from rfl] at h
    simp at h
  | [a0, a1, a2, a3, a4, a5, a6, a7, a8, a9, a10], l => by
    intro h
    rw [show deserialize_peers6_binary [a0, a1, a2, a3, a4, a5, a6, a7, a8, a9, a10] = DecodeResult.panicked from rfl] at h
    simp at h
  | [a0, a1, a2, a3, a4, a5, a6, a7, a8, a9, a10, a11], l => by
    intro h
    rw [show deserialize_peers6_binary [a0, a1, a2, a3, a4, a5, a6, a7, a8, a9, a10, a11] = DecodeResult.panicked from rfl] at h
    simp at h
  | [a0, a1, a2, a3, a4, a5, a6, a7, a8, a9, a10, a11, a12], l => by
    intro h
    rw [show deserialize_peers6_binary [a0, a1, a2, a3, a4, a5, a6, a7, a8, a9, a10, a11, a12] = DecodeResult.panicked from rfl] at h
    simp at h
  | [a0, a1, a2, a3, a4, a5, a6, a7, a8, a9, a10, a11, a12, a13], l => by
    intro h
    rw [show deserialize_peers6_binary [a0, a1, a2, a3, a4, a5, a6, a7, a8, a9, a10, a11, a12, a13] = DecodeResult.panicked from rfl] at h
    simp at h
  | [a0, a1, a2, a3, a4, a5, a6, a7, a8, a9, a10, a11, a12, a13, a14], l => by
    intro h
    rw [show deserialize_peers6_binary [a0, a1, a2, a3, a4, a5, a6, a7, a8, a9, a10, a11, a12, a13, a14] = DecodeResult.panicked from rfl] at h
    simp at h
  | [a0, a1, a2, a3, a4, a5, a6, a7, a8, a9, a10, a11, a12, a13, a14, a15], l => by
    intro h
    rw [show deserialize_peers6_binary [a0, a1, a2, a3, a4, a5, a6, a7, a8, a9, a10, a11, a12, a13, a14, a15] = DecodeResult.panicked from rfl] at h
    simp at h
  | [a0, a1, a2, a3, a4, a5, a6, a7, a8, a9, a10, a11, a12, a13, a14, a15, a16], l => by
    intro h
    rw [show deserialize_peers6_binary [a0, a1, a2, a3, a4, a5, a6, a7, a8, a9, a10, a11, a12, a13, a14, a15, a16] = DecodeResult.panicked from rfl] at h
    simp at h
  | a0 :: a1 :: a2 :: a3 :: a4 :: a5 :: a6 :: a7 :: a8 :: a9 :: a10 :: a11 :: a12 :: a13 :: a14 :: a15 :: a16 :: a17 :: rest, l => by
    intro h
    cases hres : deserialize_peers6_binary rest with
    | panicked =>
      simp only [deserialize_peers6_binary, hres] at h
      exact absurd h (by simp)
    | ok l2 =>
      simp only [deserialize_peers6_binary, hres] at h
      obtain rfl := DecodeResult.ok.inj h
      have ih := deserialize_peers6_binary_ok_length rest l2 hres
      simp only [List.length_cons]
      omega

/-! Path analysis of fetch_cache. -/

theorem read_cache_ok_some {io_fail : Bool} {file : FileState}
    {c : TorrentCache} (h : read_cache io_fail file = .ok (some c)) :
    file = .content c := by
  unfold read_cache at h
  split at h
  · cases h
  · cases file with
    | absent => simp at h
    | truncated => cases h
    | content c2 =>
      have h2 : c2 = c := Option.some.inj (Except.ok.inj h)
      rw [h2]

theorem effective_ttl_ge (mi : Option Nat) (ttl : Nat) :
    ttl ≤ effective_ttl mi ttl := by
  cases mi with
  | none => exact Nat.le_refl _
  | some m => exact Nat.le_max_right m ttl

theorem effective_ttl_zero_min (ttl : Nat) :
    effective_ttl (some 0) ttl = ttl := by
  simp [effective_ttl]

theorem is_hit_merge {c : TorrentCache} {key : String} {size : Nat}
    {mi : Option Nat} {ttl now : Nat} {peers : List SocketAddr}
    (httl : 0 < ttl) :
    is_hit (merge_phase c key size mi ttl now peers) key now = true := by
  unfold is_hit
  rw [merge_phase_lookup_tracker]
  have := effective_ttl_ge mi ttl
  simp only [decide_eq_true_eq]
  omega

theorem write_cache_ok_inv {open_fail write_fail : Bool} {file f2 : FileState}
    {c : TorrentCache}
    (h : write_cache open_fail write_fail file c = (none, f2)) :
    f2 = .content c := by
  unfold write_cache at h
  split at h
  · cases h
  · split at h
    · cases h
    · exact (Prod.mk.injEq .. ▸ h).2.symm

theorem write_cache_err_inv {open_fail write_fail : Bool} {file f2 : FileState}
    {c : TorrentCache} {e : FetchError}
    (h : write_cache open_fail write_fail file c = (some e, f2)) :
    e = .persistFail := by
  unfold write_cache at h
  split at h
  · exact (Option.some.inj (Prod.mk.injEq .. ▸ h).1).symm
  · split at h
    · exact (Option.some.inj (Prod.mk.injEq .. ▸ h).1).symm
    · cases (Prod.mk.injEq .. ▸ h).1

theorem fetch_origin_ok_inv {env : FetchEnv} {file : FileState}
    {s : Option Nat} {curr : Option TorrentCache} {key : String}
    {ttl now : Nat} {rc1 : Option Nat} {c1 : TorrentCache} {f1 : FileState}
    {up1 : Bool} {rc2 : Option Nat}
    (h : fetch_origin env file s curr key ttl now rc1 =
      ⟨.ok c1, f1, up1, rc2⟩) :
    ∃ size resp l4 l6,
      s = some size ∧ env.origin_resp = some resp ∧
      decode_peers_opt resp.peers = some l4 ∧
      decode_peers6_opt resp.peers6 = some l6 ∧
      c1 = merge_phase (curr.getD empty_cache) key size resp.min_interval ttl
        now (l4 ++ l6) ∧
      f1 = .content c1 ∧ up1 = true := by
  obtain ⟨rf1, rf2, st, oresp, pof, pwf⟩ := env
  cases s with
  | none => simp [fetch_origin] at h
  | some size =>
    cases st with
    | true => simp [fetch_origin] at h
    | false =>
      cases oresp with
      | none => simp [fetch_origin] at h
      | some resp =>
        cases h4 : decode_peers_opt resp.peers with
        | none =>
          simp only [fetch_origin, h4] at h
          exact absurd h (by simp)
        | some l4 =>
          cases h6 : decode_peers6_opt resp.peers6 with
          | none =>
            simp only [fetch_origin, h4] at h
            rw [h6] at h
            exact absurd h (by simp)
          | some l6 =>
            cases pof with
            | true =>
              simp only [fetch_origin, h4, h6, write_cache] at h
              exact absurd h (by simp)
            | false =>
              cases pwf with
              | true =>
                simp only [fetch_origin, h4, h6, write_cache] at h
                exact absurd h (by simp)
              | false =>
                simp [fetch_origin, h4, h6, write_cache,
                  FetchOut.mk.injEq, FetchResult.ok.injEq] at h
                obtain ⟨h1, h2, h3, _⟩ := h
                refine ⟨size, resp, l4, l6, rfl, rfl, h4, h6, h1.symm, ?_, h3⟩
                rw [← h1]
                exact h2.symm

theorem fetch_write_ok_inv {env : FetchEnv} {file : FileState}
    {s : Option Nat} {key : String} {ttl now : Nat} {rc : Option Nat}
    {c1 : TorrentCache} {f1 : FileState} {up1 : Bool} {rc2 : Option Nat}
    (h : fetch_write env file s key ttl now rc = ⟨.ok c1, f1, up1, rc2⟩) :
    (file = .content c1 ∧ f1 = file ∧ up1 = false ∧
      is_hit c1 key now = true) ∨
    (∃ c0 size resp l4 l6,
      env.origin_resp = some resp ∧
      decode_peers_opt resp.peers = some l4 ∧
      decode_peers6_opt resp.peers6 = some l6 ∧
      c1 = merge_phase c0 key size resp.min_interval ttl now (l4 ++ l6) ∧
      f1 = .content c1 ∧ up1 = true) := by
  cases hr : read_cache env.read_fail2 file with
  | error e =>
    simp only [fetch_write, hr] at h
    exact absurd h (by simp)
  | ok curr =>
    cases curr with
    | none =>
      simp only [fetch_write, hr] at h
      obtain ⟨size, resp, l4, l6, _, horesp, hl4, hl6, hc, hf, hup⟩ :=
        fetch_origin_ok_inv h
      exact Or.inr ⟨_, size, resp, l4, l6, horesp, hl4, hl6, hc, hf, hup⟩
    | some c =>
      simp only [fetch_write, hr] at h
      split at h
      · rename_i hh
        simp only [FetchOut.mk.injEq, FetchResult.ok.injEq] at h
        obtain ⟨h1, h2, h3, _⟩ := h
        exact Or.inl ⟨h1 ▸ read_cache_ok_some hr, h2.symm, h3.symm, h1 ▸ hh⟩
      · obtain ⟨size, resp, l4, l6, _, horesp, hl4, hl6, hc, hf, hup⟩ :=
          fetch_origin_ok_inv h
        exact Or.inr ⟨_, size, resp, l4, l6, horesp, hl4, hl6, hc, hf, hup⟩

theorem fetch_cache_ok_inv {env : FetchEnv} {file : FileState}
    {s : Option Nat} {key : String} {ttl now : Nat} {rc : Option Nat}
    {c1 : TorrentCache} {f1 : FileState} {up1 : Bool} {rc2 : Option Nat}
    (h : fetch_cache env file s key ttl now rc = ⟨.ok c1, f1, up1, rc2⟩) :
    (file = .content c1 ∧ f1 = file ∧ up1 = false ∧
      is_hit c1 key now = true) ∨
    (∃ c0 size resp l4 l6,
      env.origin_resp = some resp ∧
      decode_peers_opt resp.peers = some l4 ∧
      decode_peers6_opt resp.peers6 = some l6 ∧
      c1 = merge_phase c0 key size resp.min_interval ttl now (l4 ++ l6) ∧
      f1 = .content c1 ∧ up1 = true) := by
  cases hr : read_cache env.read_fail1 file with
  | error e =>
    simp only [fetch_cache, hr] at h
    exact absurd h (by simp)
  | ok curr =>
    cases curr with
    | none =>
      simp only [fetch_cache, hr] at h
      exact fetch_write_ok_inv h
    | some c =>
      simp only [fetch_cache, hr] at h
      split at h
      · rename_i hh
        simp only [FetchOut.mk.injEq, FetchResult.ok.injEq] at h
        obtain ⟨h1, h2, h3, _⟩ := h
        exact Or.inl ⟨h1 ▸ read_cache_ok_some hr, h2.symm, h3.symm, h1 ▸ hh⟩
      · exact fetch_write_ok_inv h

theorem fetch_cache_ok_post {env : FetchEnv} {file : FileState}
    {s : Option Nat} {key : String} {ttl now : Nat} {rc : Option Nat}
    {c1 : TorrentCache} {f1 : FileState} {up1 : Bool} {rc2 : Option Nat}
    (httl : 0 < ttl)
    (h : fetch_cache env file s key ttl now rc = ⟨.ok c1, f1, up1, rc2⟩) :
    f1 = .content c1 ∧ is_hit c1 key now = true ∧
      (file = .absent → up1 = true) := by
  rcases fetch_cache_ok_inv h with ⟨hfile, hf1, _, hhit⟩ |
    ⟨c0, size, resp, l4, l6, _, _, _, hc, hf, hup⟩
  · refine ⟨hf1.trans hfile, hhit, ?_⟩
    intro habs
    rw [habs] at hfile
    cases hfile
  · exact ⟨hf, hc.symm ▸ is_hit_merge httl, fun _ => hup⟩

theorem fetch_origin_err_file {env : FetchEnv} {file : FileState}
    {s : Option Nat} {curr : Option TorrentCache} {key : String}
    {ttl now : Nat} {rc1 : Option Nat} {e : FetchError} {f1 : FileState}
    {up1 : Bool} {rc2 : Option Nat}
    (h : fetch_origin env file s curr key ttl now rc1 =
      ⟨.err e, f1, up1, rc2⟩)
    (hne : e ≠ .persistFail) : f1 = file := by
  obtain ⟨rf1, rf2, st, oresp, pof, pwf⟩ := env
  cases s with
  | none => simp [fetch_origin] at h
  | some size =>
    cases st with
    | true =>
      simp [fetch_origin] at h
      exact h.2.1.symm
    | false =>
      cases oresp with
      | none =>
        simp [fetch_origin] at h
        exact h.2.1.symm
      | some resp =>
        cases h4 : decode_peers_opt resp.peers with
        | none =>
          simp only [fetch_origin, h4] at h
          exact absurd h (by simp)
        | some l4 =>
          cases h6 : decode_peers6_opt resp.peers6 with
          | none =>
            simp only [fetch_origin, h4] at h
            rw [h6] at h
            exact absurd h (by simp)
          | some l6 =>
            cases pof with
            | true =>
              simp [fetch_origin, h4, h6, write_cache] at h
              exact h.2.1.symm
            | false =>
              cases pwf with
              | true =>
                simp [fetch_origin, h4, h6, write_cache] at h
                exact absurd h.1.symm hne
              | false =>
                simp [fetch_origin, h4, h6, write_cache] at h

theorem fetch_write_err_file {env : FetchEnv} {file : FileState}
    {s : Option Nat} {key : String} {ttl now : Nat} {rc : Option Nat}
    {e : FetchError} {f1 : FileState} {up1 : Bool} {rc2 : Option Nat}
    (h : fetch_write env file s key ttl now rc = ⟨.err e, f1, up1, rc2⟩)
    (hne : e ≠ .persistFail) : f1 = file := by
  cases hr : read_cache env.read_fail2 file with
  | error e2 =>
    simp only [fetch_write, hr] at h
    simp at h
    exact h.2.1.symm
  | ok curr =>
    cases curr with
    | none =>
      simp only [fetch_write, hr] at h
      exact fetch_origin_err_file h hne
    | some c =>
      simp only [fetch_write, hr] at h
      split at h
      · exact absurd h (by simp)
      · exact fetch_origin_err_file h hne

theorem fetch_cache_err_file {env : FetchEnv} {file : FileState}
    {s : Option Nat} {key : String} {ttl now : Nat} {rc : Option Nat}
    {e : FetchError} {f1 : FileState} {up1 : Bool} {rc2 : Option Nat}
    (h : fetch_cache env file s key ttl now rc = ⟨.err e, f1, up1, rc2⟩)
    (hne : e ≠ .persistFail) : f1 = file := by
  cases hr : read_cache env.read_fail1 file with
  | error e2 =>
    simp only [fetch_cache, hr] at h
    simp at h
    exact h.2.1.symm
  | ok curr =>
    cases curr with
    | none =>
      simp only [fetch_cache, hr] at h
      exact fetch_write_err_file h hne
    | some c =>
      simp only [fetch_cache, hr] at h
      split at h
      · exact absurd h (by simp)
      · exact fetch_write_err_file h hne

/-! The response projector as filter plus concatenation. -/

theorem collect_compact_fst :
    ∀ (l : List (SocketAddr × Nat)),
      (collect_compact l).1 =
        (((l.map Prod.fst).filter SocketAddr.is_ipv4).map
          serialize_peer_binary).flatten := by
  intro l
  induction l with
  | nil => rfl
  | cons hd tl ih =>
    obtain ⟨a, t⟩ := hd
    cases a with
    | v4 o p =>
      simp [collect_compact, SocketAddr.is_ipv4, List.filter_cons, ih]
    | v6 o p =>
      simp [collect_compact, SocketAddr.is_ipv4, SocketAddr.is_ipv6,
        List.filter_cons, ih]

theorem collect_compact_snd :
    ∀ (l : List (SocketAddr × Nat)),
      (collect_compact l).2 =
        (((l.map Prod.fst).filter SocketAddr.is_ipv6).map
          serialize_peer_binary).flatten := by
  intro l
  induction l with
  | nil => rfl
  | cons hd tl ih =>
    obtain ⟨a, t⟩ := hd
    cases a with
    | v4 o p =>
      simp [collect_compact, SocketAddr.is_ipv4, SocketAddr.is_ipv6,
        List.filter_cons, ih]
    | v6 o p =>
      simp [collect_compact, SocketAddr.is_ipv4, SocketAddr.is_ipv6,
        List.filter_cons, ih]

/-! Settlement of the claims. -/

/-- Claim C1 (code bug, failing input): a fetch that fails while loading the
cache - here the file exists but does not deserialize - returns the error
through the question-mark operator without running the manual guard drop, so
the registry entry for the key stays at refcount 1 although no guard is
live, and is never removed. -/
theorem c1_registry_leak :
    fetch_cache (env_ok resp_empty) .truncated (some 5) "k" 60 100 none =
      ⟨.err .cacheLoad, .truncated, false, some 1⟩ := by
  rfl

/-- Claim C2 (code bug, failing input): with no declared size and no cached
directory, fetch_cache panics (failed debug assertion, unwrap on None)
instead of returning a MissingSize error; with a prior directory present its
persisted size 7 is adopted and the fetch proceeds. -/
theorem c2_missing_size_panics :
    fetch_cache (env_ok resp_empty) .absent none "k" 60 100 none =
      ⟨.panicked, .absent, false, some 1⟩ ∧
    fetch_cache (env_ok resp_empty) (.content cache7) none "k" 60 100 none =
      ⟨.ok cache7_after, .content cache7_after, true, none⟩ := by
  exact ⟨rfl, rfl⟩

/-- Claim C3 counterexample: a fetch that fails during persistence, after
the truncating open succeeded, returns an error yet changes the on-disk
state from the prior directory to a truncated file. -/
theorem c3_counterexample :
    fetch_cache (env_write_fails resp_empty) (.content cache7) (some 5) "k"
        60 100 none =
      ⟨.err .persistFail, .truncated, true, some 1⟩ ∧
    FileState.truncated ≠ FileState.content cache7 := by
  exact ⟨rfl, by decide⟩

/-- Claim C3 (amended): a failed fetch leaves the persisted state exactly as
it was in every case except a persistence failure, which can leave the file
truncated by the interrupted store. -/
theorem c3_amended {env : FetchEnv} {file f1 : FileState} {s : Option Nat}
    {key : String} {ttl now : Nat} {rc rc2 : Option Nat} {e : FetchError}
    {up1 : Bool}
    (h : fetch_cache env file s key ttl now rc = ⟨.err e, f1, up1, rc2⟩)
    (hne : e ≠ .persistFail) : f1 = file :=
  fetch_cache_err_file h hne

theorem c3_amended_witness :
    (fetch_cache ⟨false, false, true, some resp_empty, false, false⟩
        (.content cache7) (some 5) "k" 60 100 none =
      ⟨.err .admissionTimeout, .content cache7, false, some 1⟩) ∧
    FileState.content cache7 = FileState.content cache7 :=
  ⟨rfl, c3_amended (show fetch_cache
      ⟨false, false, true, some resp_empty, false, false⟩
      (.content cache7) (some 5) "k" 60 100 none =
    ⟨.err .admissionTimeout, .content cache7, false, some 1⟩ from rfl)
    (by decide)⟩

/-- Claim C4 counterexample: re-announcing over a directory holding a peer
whose expiry equals now leaves that peer in both indices - the sweep uses a
strict comparison, so a peer expiring exactly at now is not evicted. -/
theorem c4_counterexample :
    fetch_cache (env_ok resp_empty) (.content cache_boundary) (some 5) "k"
        60 100 none =
      ⟨.ok cache_boundary_after, .content cache_boundary_after, true,
        none⟩ ∧
    (⟨100, addr_a⟩ : Peer) ∈ cache_boundary_after.peers_time ∧
    (addr_a, (100 : Nat)) ∈ cache_boundary_after.peers_addr := by
  exact ⟨rfl, by decide, by decide⟩

theorem cache_boundary_inv : cache_inv cache_boundary := by
  refine ⟨by simp [cache_boundary], by simp [cache_boundary, keys_nodup],
    ?_⟩
  intro a t
  simp only [cache_boundary, List.mem_singleton, Prod.mk.injEq,
    Peer.mk.injEq]
  tauto

/-- Claim C4 (amended): the merge-phase sweep removes exactly the peers
whose expiry is strictly less than now; a peer expiring exactly at now is
retained in both indices. -/
theorem c4_amended (c : TorrentCache) (now : Nat) :
    (∀ p : Peer, p ∈ (evict_expired c now).peers_time ↔
      p ∈ c.peers_time ∧ ¬ p.expire < now) ∧
    (cache_inv c → ∀ a t, (a, t) ∈ (evict_expired c now).peers_addr ↔
      (a, t) ∈ c.peers_addr ∧ ¬ t < now) := by
  constructor
  · intro p
    simp [evict_expired, List.mem_filter]
  · intro hinv a t
    obtain ⟨hnd, hknd, hbij⟩ := hinv
    simp only [evict_expired, mem_foldl_addr_remove, List.mem_filter,
      decide_eq_true_eq]
    constructor
    · rintro ⟨hm, hall⟩
      refine ⟨hm, ?_⟩
      intro hlt
      exact hall ⟨t, a⟩ ⟨(hbij a t).mp hm, hlt⟩ rfl
    · rintro ⟨hm, hnlt⟩
      refine ⟨hm, ?_⟩
      rintro ⟨pe, pad⟩ hp hpb
      simp only [List.mem_filter, decide_eq_true_eq] at hp
      simp only at hpb
      have hmem : (⟨pe, pad⟩ : Peer) ∈ c.peers_time := hp.1
      rw [hpb] at hmem
      have hpa : (a, pe) ∈ c.peers_addr := (hbij a pe).mpr hmem
      have hpt : pe = t := keys_nodup_uniq hknd hpa hm
      rw [hpt] at hp
      exact hnlt hp.2

theorem c4_amended_witness :
    cache_inv cache_boundary ∧
    ((addr_a, (100 : Nat)) ∈ (evict_expired cache_boundary 100).peers_addr ↔
      (addr_a, (100 : Nat)) ∈ cache_boundary.peers_addr ∧
        ¬ (100 : Nat) < 100) :=
  ⟨cache_boundary_inv,
    (c4_amended cache_boundary 100).2 cache_boundary_inv addr_a 100⟩

/-- Claim C5: from any directory satisfying the invariant, the merge phase
(eviction, then upserting every peer the origin returned, duplicate
addresses included) leaves the two indices in bijection, and no two
peers_time entries share an address. -/
theorem c5_bijection (c : TorrentCache) (key : String) (size : Nat)
    (mi : Option Nat) (ttl now : Nat) (peers : List SocketAddr)
    (hinv : cache_inv c) :
    (∀ a t, (a, t) ∈ (merge_phase c key size mi ttl now peers).peers_addr ↔
      (⟨t, a⟩ : Peer) ∈
        (merge_phase c key size mi ttl now peers).peers_time) ∧
    (∀ t t' a,
      (⟨t, a⟩ : Peer) ∈ (merge_phase c key size mi ttl now peers).peers_time →
      (⟨t', a⟩ : Peer) ∈
        (merge_phase c key size mi ttl now peers).peers_time →
      t = t') := by
  obtain ⟨hnd, hknd, hbij⟩ := @merge_phase_inv c key size mi ttl now peers
    hinv
  exact ⟨hbij, fun t t' a h1 h2 =>
    keys_nodup_uniq hknd ((hbij a t).mpr h1) ((hbij a t').mpr h2)⟩

theorem c5_bijection_witness :
    cache_inv cache_boundary ∧
    ((addr_a, (160 : Nat)) ∈
        (merge_phase cache_boundary "k" 5 none 60 100
          [addr_a, addr_b, addr_a]).peers_addr ↔
      (⟨160, addr_a⟩ : Peer) ∈
        (merge_phase cache_boundary "k" 5 none 60 100
          [addr_a, addr_b, addr_a]).peers_time) :=
  ⟨cache_boundary_inv,
    (c5_bijection cache_boundary "k" 5 none 60 100 [addr_a, addr_b, addr_a]
      cache_boundary_inv).1 addr_a 160⟩

/-- Claim C6 counterexample: a 7-byte input (length not a multiple of 6)
makes the IPv4 compact decoder panic - it returns no decoded value and no
error value at all. -/
theorem c6_counterexample :
    deserialize_peers_binary [1, 2, 3, 4, 26, 225, 9] = .panicked := by
  rfl

/-- Claim C6 (amended): an input whose length is not a multiple of 6 (IPv4)
or 18 (IPv6) makes the decoder panic - a defined abort from the debug
assertion or the slice bounds check, never a silent truncation and never an
out-of-bounds read - while every input of multiple length decodes
completely, one peer per 6 or 18 bytes. -/
theorem c6_amended (v : List Nat) :
    (deserialize_peers_binary v = .panicked ↔ ¬ v.length % 6 = 0) ∧
    (∀ l, deserialize_peers_binary v = .ok l → v.length = 6 * l.length) ∧
    (deserialize_peers6_binary v = .panicked ↔ ¬ v.length % 18 = 0) ∧
    (∀ l, deserialize_peers6_binary v = .ok l → v.length = 18 * l.length) :=
  ⟨deserialize_peers_binary_panic_iff v,
    fun l => deserialize_peers_binary_ok_length v l,
    deserialize_peers6_binary_panic_iff v,
    fun l => deserialize_peers6_binary_ok_length v l⟩

theorem c6_amended_witness :
    deserialize_peers_binary [1, 2, 3, 4, 26, 225] = .ok [addr_a] ∧
    ([1, 2, 3, 4, 26, 225] : List Nat).length =
      6 * ([addr_a] : List SocketAddr).length :=
  ⟨rfl, (c6_amended [1, 2, 3, 4, 26, 225]).2.1 [addr_a] rfl⟩

/-- Claim C7: starting from no cache file, a successful fetch announces to
the origin (exactly one upstream request), and an immediately repeated fetch
with the same arguments at the same instant announces no further time,
returns exactly the directory the first call produced, and leaves the file
unchanged. -/
theorem c7_single_flight (env1 env2 : FetchEnv) (s : Option Nat)
    (key : String) (ttl now : Nat) (rc rc2 : Option Nat) (c1 : TorrentCache)
    (f1 : FileState) (up1 : Bool) (httl : 0 < ttl)
    (hrf : env2.read_fail1 = false)
    (h : fetch_cache env1 .absent s key ttl now rc =
      ⟨.ok c1, f1, up1, rc2⟩) :
    up1 = true ∧
    (fetch_cache env2 f1 s key ttl now rc2).result = .ok c1 ∧
    (fetch_cache env2 f1 s key ttl now rc2).upstream = false ∧
    (fetch_cache env2 f1 s key ttl now rc2).file = f1 := by
  obtain ⟨hf1, hhit, hup⟩ := fetch_cache_ok_post httl h
  have hread : read_cache env2.read_fail1 (.content c1) = .ok (some c1) := by
    rw [hrf]
    rfl
  refine ⟨hup rfl, ?_, ?_, ?_⟩ <;>
    · rw [hf1]
      simp [fetch_cache, hread, hhit]

theorem c7_single_flight_witness :
    fetch_cache (env_ok resp_empty) .absent (some 5) "k" 60 100 none =
      ⟨.ok cache_cold, .content cache_cold, true, none⟩ ∧
    true = true ∧
    (fetch_cache (env_ok resp_empty) (.content cache_cold) (some 5) "k" 60
      100 none).result = .ok cache_cold ∧
    (fetch_cache (env_ok resp_empty) (.content cache_cold) (some 5) "k" 60
      100 none).upstream = false := by
  have happ := c7_single_flight (env_ok resp_empty) (env_ok resp_empty)
    (some 5) "k" 60 100 none none cache_cold (.content cache_cold) true
    (by decide) rfl rfl
  exact ⟨rfl, happ.1, happ.2.1, happ.2.2.1⟩

/-- Claim C8: on the upstream path of a successful fetch, the tracker expiry
for the origin key and the expiry recorded for every upserted origin peer
equal now plus the effective ttl, where the effective ttl is the max of ttl
and the origin min interval (ttl alone when absent), and a min interval of
zero imposes no floor. -/
theorem c8_effective_ttl (env : FetchEnv) (file : FileState) (s : Option Nat)
    (key : String) (ttl now : Nat) (rc rc2 : Option Nat) (c1 : TorrentCache)
    (f1 : FileState) (resp : AnnounceResponse) (l4 l6 : List SocketAddr)
    (hresp : env.origin_resp = some resp)
    (hl4 : decode_peers_opt resp.peers = some l4)
    (hl6 : decode_peers6_opt resp.peers6 = some l6)
    (h : fetch_cache env file s key ttl now rc = ⟨.ok c1, f1, true, rc2⟩) :
    lookup_tracker c1.trackers key =
      some (now + effective_ttl resp.min_interval ttl) ∧
    (∀ a ∈ l4 ++ l6, lookup_addr c1.peers_addr a =
      some (now + effective_ttl resp.min_interval ttl)) ∧
    (resp.min_interval = some 0 →
      effective_ttl resp.min_interval ttl = ttl) := by
  rcases fetch_cache_ok_inv h with ⟨_, _, hup, _⟩ |
    ⟨c0, size, resp2, l42, l62, hresp2, hl42, hl62, hc, _, _⟩
  · exact Bool.noConfusion hup
  · rw [hresp2] at hresp
    obtain rfl := Option.some.inj hresp
    rw [hl4] at hl42
    obtain rfl := Option.some.inj hl42
    rw [hl6] at hl62
    obtain rfl := Option.some.inj hl62
    subst hc
    refine ⟨merge_phase_lookup_tracker _ _ _ _ _ _ _, ?_, ?_⟩
    · intro a ha
      exact merge_phase_lookup_addr ha
    · intro h0
      rw [h0]
      exact effective_ttl_zero_min ttl

theorem c8_effective_ttl_witness :
    (env_ok resp_mi0).origin_resp = some resp_mi0 ∧
    decode_peers_opt resp_mi0.peers = some [addr_a] ∧
    decode_peers6_opt resp_mi0.peers6 = some [] ∧
    fetch_cache (env_ok resp_mi0) .absent (some 5) "k" 60 100 none =
      ⟨.ok cache_cold_peer, .content cache_cold_peer, true, none⟩ ∧
    lookup_tracker cache_cold_peer.trackers "k" =
      some (100 + effective_ttl resp_mi0.min_interval 60) := by
  have happ := c8_effective_ttl (env_ok resp_mi0) .absent (some 5) "k" 60
    100 none none cache_cold_peer (.content cache_cold_peer) resp_mi0
    [addr_a] [] rfl rfl rfl rfl
  exact ⟨rfl, rfl, rfl, rfl, happ.1⟩

/-- Claim C9: the projector reports interval 30, min interval 30, complete
0 and incomplete the directory size, and the peers and peers6 fields are the
concatenated compact encodings of exactly the IPv4 and exactly the IPv6
peers: octets followed by the big-endian port, 6 and 18 bytes per peer. -/
theorem c9_projector (c : TorrentCache)
    (hwf : ∀ kv ∈ c.peers_addr, addr_wf kv.1 = true) :
    (announce_response_of_cache c).interval = some 30 ∧
    (announce_response_of_cache c).min_interval = some 30 ∧
    (announce_response_of_cache c).seeders = some 0 ∧
    (announce_response_of_cache c).leechers = some c.peers_addr.length ∧
    (announce_response_of_cache c).peers = some
      (((c.peers_addr.map Prod.fst).filter SocketAddr.is_ipv4).map
        serialize_peer_binary).flatten ∧
    (announce_response_of_cache c).peers6 = some
      (((c.peers_addr.map Prod.fst).filter SocketAddr.is_ipv6).map
        serialize_peer_binary).flatten ∧
    (∀ a ∈ c.peers_addr.map Prod.fst,
      (a.is_ipv4 = true → (serialize_peer_binary a).length = 6) ∧
      (a.is_ipv6 = true → (serialize_peer_binary a).length = 18)) ∧
    (∀ o p, SocketAddr.v4 o p ∈ c.peers_addr.map Prod.fst →
      serialize_peer_binary (.v4 o p) = o ++ [p / 256, p % 256]) := by
  refine ⟨rfl, rfl, rfl, rfl, ?_, ?_, ?_, ?_⟩
  · show some (collect_compact c.peers_addr).1 = _
    rw [collect_compact_fst]
  · show some (collect_compact c.peers_addr).2 = _
    rw [collect_compact_snd]
  · intro a ha
    obtain ⟨⟨a2, t⟩, hmem, rfl⟩ := List.mem_map.mp ha
    have hw := hwf _ hmem
    constructor
    · intro h4
      cases a2 with
      | v4 o p =>
        simp only [addr_wf, Bool.and_eq_true, decide_eq_true_eq] at hw
        simp [serialize_peer_binary, u16_be_bytes, hw.1]
      | v6 o p => simp [SocketAddr.is_ipv4] at h4
    · intro h6
      cases a2 with
      | v4 o p => simp [SocketAddr.is_ipv6] at h6
      | v6 o p =>
        simp only [addr_wf, Bool.and_eq_true, decide_eq_true_eq] at hw
        simp [serialize_peer_binary, u16_be_bytes, hw.1]
  · intro o p hmem
    obtain ⟨⟨a2, t⟩, hmem2, heq⟩ := List.mem_map.mp hmem
    have hw := hwf _ hmem2
    rw [heq] at hw
    simp only [addr_wf, Bool.and_eq_true, decide_eq_true_eq] at hw
    have hlt : p / 256 < 256 := Nat.div_lt_of_lt_mul (by omega)
    simp [serialize_peer_binary, u16_be_bytes, Nat.mod_eq_of_lt hlt]

theorem c9_projector_witness :
    (∀ kv ∈ cache_cold_peer.peers_addr, addr_wf kv.1 = true) ∧
    (announce_response_of_cache cache_cold_peer).leechers =
      some cache_cold_peer.peers_addr.length ∧
    (announce_response_of_cache cache_cold_peer).peers = some
      (((cache_cold_peer.peers_addr.map Prod.fst).filter
        SocketAddr.is_ipv4).map serialize_peer_binary).flatten := by
  have happ := c9_projector cache_cold_peer (by decide)
  exact ⟨by decide, happ.2.2.2.1, happ.2.2.2.2.1⟩

/-- Claim C10: when the read phase finds a loaded directory still valid for
the origin key, fetch_cache returns it exactly as loaded, with no upstream
announce and no change to the on-disk file, even though the snapshot may
hold peers whose own expiry is already past. -/
theorem c10_read_hit_frame (env : FetchEnv) (c : TorrentCache)
    (s : Option Nat) (key : String) (ttl now e : Nat) (rc : Option Nat)
    (hrf : env.read_fail1 = false)
    (hlk : lookup_tracker c.trackers key = some e) (hnow : now < e) :
    (fetch_cache env (.content c) s key ttl now rc).result = .ok c ∧
    (fetch_cache env (.content c) s key ttl now rc).file = .content c ∧
    (fetch_cache env (.content c) s key ttl now rc).upstream = false := by
  have hhit : is_hit c key now = true := by
    unfold is_hit
    rw [hlk]
    simpa using hnow
  have hread : read_cache env.read_fail1 (.content c) = .ok (some c) := by
    rw [hrf]
    rfl
  refine ⟨?_, ?_, ?_⟩ <;> simp [fetch_cache, hread, hhit]

theorem c10_read_hit_frame_witness :
    (env_ok resp_empty).read_fail1 = false ∧
    lookup_tracker cache_hit_stale_peer.trackers "k" = some 200 ∧
    (100 : Nat) < 200 ∧
    (⟨50, addr_a⟩ : Peer) ∈ cache_hit_stale_peer.peers_time ∧
    (50 : Nat) < 100 ∧
    (fetch_cache (env_ok resp_empty) (.content cache_hit_stale_peer)
      (some 5) "k" 60 100 none).result = .ok cache_hit_stale_peer ∧
    (fetch_cache (env_ok resp_empty) (.content cache_hit_stale_peer)
      (some 5) "k" 60 100 none).upstream = false := by
  have happ := c10_read_hit_frame (env_ok resp_empty) cache_hit_stale_peer
    (some 5) "k" 60 100 200 none rfl rfl (by decide)
  exact ⟨rfl, rfl, by decide, by decide, by decide, happ.1, happ.2.2⟩
